import Mathlib

/-!
Shallow embedding of the BadmintonAIManager repository
(`src/main.py` and `src/scripts/seed_bookings.py`).

Conventions of the embedding:

* A MongoDB collection is a `List BookingDoc`, in insertion order.
* A Python `datetime` instant (UTC) is an `Int`: seconds since the epoch.
  A calendar date is an `Int`: days since the epoch (1970-01-01, a Thursday).
  `datetime.combine(d, time.min, tzinfo=timezone.utc)` is then `d * secsPerDay`.
* `isoweekday` and Mongo `$isoDayOfWeek` return 1 (Monday) .. 7 (Sunday).
* Fallible effects (a Mongo query that may fail, the Twilio send) are
  `Except String _` parameters; a Python `try/except` is a `match` on them.
* The `%Y-%m-%d` rendering of a calendar date is modelled by the epoch-day
  number (an injective rendering of the same calendar date).
-/

def secsPerDay : Int := 86400

/-- The calendar day (epoch days) containing a UTC instant (epoch seconds). -/
def floorDay (t : Int) : Int := Int.fdiv t secsPerDay

/-- `isoweekday` of a calendar day: 1 = Monday .. 7 = Sunday.
Epoch day 0 (1970-01-01) is a Thursday. -/
def isoWeekdayOfDay (d : Int) : Int := (d + 3).emod 7 + 1

/-- Mongo `$isoDayOfWeek` of a UTC instant. -/
def isoDayOfWeek (t : Int) : Int := isoWeekdayOfDay (floorDay t)

/-- `pandas.Timestamp.day_name()` of a calendar day. -/
def dayName (d : Int) : String :=
  match ((d + 3).emod 7).toNat with
  | 0 => "Monday"
  | 1 => "Tuesday"
  | 2 => "Wednesday"
  | 3 => "Thursday"
  | 4 => "Friday"
  | 5 => "Saturday"
  | _ => "Sunday"

/-- A stored booking document: the fields written by `main.py` and by
`scripts/seed_bookings.py`. `date` is a UTC instant in epoch seconds. -/
structure BookingDoc where
  user_id : String
  user_name : String
  whatsapp_number : String
  court_name : String
  date : Int
  is_regular_slot : Bool
deriving DecidableEq

/-- The `Booking` pydantic model of `main.py`: `date` is a calendar date
(epoch days); `is_regular_slot` defaults to `true`. -/
structure Booking where
  user_id : String
  user_name : String
  whatsapp_number : String
  court_name : String
  date : Int
  is_regular_slot : Bool := true
deriving DecidableEq

/-- The date normalization in `add_booking`: `booking_data["date"] =
datetime.combine(booking.date, time.min, tzinfo=timezone.utc)`. -/
def bookingToDoc (b : Booking) : BookingDoc :=
  { user_id := b.user_id, user_name := b.user_name,
    whatsapp_number := b.whatsapp_number, court_name := b.court_name,
    date := b.date * secsPerDay, is_regular_slot := b.is_regular_slot }

/-- `POST /bookings` (`add_booking` in `main.py`): normalizes the date to
start of day UTC and calls `insert_one` — an unconditional insert. -/
def add_booking (store : List BookingDoc) (b : Booking) : List BookingDoc :=
  store ++ [bookingToDoc b]

/-- Number of stored records carrying the given `(user_id, date)` key. -/
def countKey (store : List BookingDoc) (u : String) (d : Int) : Nat :=
  store.countP (fun r => r.user_id == u && r.date == d)

/-- Result of a Mongo `update_one`: whether a new document was inserted
(`upserted_id is not None`) and whether an existing one was modified
(`modified_count`, which Mongo reports as `0` when the matched document
already equals the update). -/
structure UpdateResult where
  upserted : Bool
  modified : Bool
deriving DecidableEq

/-- `collection.update_one(filter-by-key, set-doc, upsert=True)` as used by
`_upsert_records` in `scripts/seed_bookings.py`: replaces the first document
matching the `(user_id, date)` key with `doc` (the update sets every field of
`doc`), or inserts `doc` when no document matches. -/
def update_one_upsert : List BookingDoc → BookingDoc → List BookingDoc × UpdateResult
  | [], doc => ([doc], { upserted := true, modified := false })
  | r :: rest, doc =>
    if r.user_id == doc.user_id && r.date == doc.date then
      (doc :: rest, { upserted := false, modified := decide (r ≠ doc) })
    else
      let out := update_one_upsert rest doc
      (r :: out.1, out.2)

/-- `_upsert_records` from `scripts/seed_bookings.py`: upserts each record in
turn, counting those for which a write happened (`result.upserted_id is not
None or result.modified_count`). -/
def upsert_records (store : List BookingDoc) (records : List BookingDoc) :
    List BookingDoc × Nat :=
  records.foldl
    (fun acc doc =>
      let out := update_one_upsert acc.1 doc
      (out.1, if out.2.upserted || out.2.modified then acc.2 + 1 else acc.2))
    (store, 0)

def demoBooking : Booking :=
  { user_id := "u1", user_name := "Ann",
    whatsapp_number := "whatsapp:+15550000001",
    court_name := "Court A", date := 19700 }

/-- C1: the claim asserts that every write path for a booking is an idempotent
upsert on the `(player_id, date)` key, leaving at most one record per key.
The seed script's `_upsert_records` indeed is (second and third conjunct:
writing the same record twice leaves one stored document and the second write
reports neither an insert nor a modification), but the `POST /bookings`
endpoint `add_booking` calls `insert_one` unconditionally: two identical
requests leave two records with the same `(user_id, date)` key (first
conjunct), contradicting the stated invariant. -/
theorem add_booking_duplicates_natural_key :
    countKey (add_booking (add_booking [] demoBooking) demoBooking) "u1"
        (19700 * secsPerDay) = 2
    ∧ (update_one_upsert (update_one_upsert [] (bookingToDoc demoBooking)).1
        (bookingToDoc demoBooking)).1 = [bookingToDoc demoBooking]
    ∧ (update_one_upsert (update_one_upsert [] (bookingToDoc demoBooking)).1
        (bookingToDoc demoBooking)).2 = { upserted := false, modified := false } := by
  decide

/-- A tool call requested by the reasoning model: name, (opaque) arguments,
and the originating call identifier. -/
structure ToolCall where
  name : String
  args : String
  id : String
deriving DecidableEq

/-- A message of the agent state: human-authored, reasoner-authored (an AI
message carrying its requested tool calls), or a tool result
(`ToolMessage(tool_call_id, name, content)`). -/
inductive Message where
  | human (content : String)
  | ai (content : String) (tool_calls : List ToolCall)
  | tool (tool_call_id : String) (name : String) (content : String)
deriving DecidableEq

/-- `getattr(msg, "tool_calls", default)`, with both defaults used by
`main.py` (`None` in `router`, `[]` in `tool_node`) collapsed to the empty
list: only AI messages carry the attribute, and Python treats `None` and
`[]` alike (both falsy, both yield an empty iteration). -/
def getToolCalls : Message → List ToolCall
  | .ai _ tcs => tcs
  | _ => []

/-- The tool registry `tool_map`: tool name to tool function. A tool
function takes the (opaque) arguments and either returns a result string or
raises (`Except.error` is a raised exception carrying its text). -/
abbrev ToolRegistry := List (String × (String → Except String String))

/-- The `except Exception` wrapping of one invocation in `tool_node`: the
result string on success, `"Error: " + str(e)` when the invocation raises. -/
def toolResultContent (f : String → Except String String) (args : String) : String :=
  match f args with
  | .ok res => res
  | .error e => "Error: " ++ e

/-- One iteration of the `for t in tool_calls` loop in `tool_node`: if the
name is in `tool_map`, append one `ToolMessage` (the invocation's result, or
`"Error: " + str(e)` when it raises); otherwise append nothing. -/
def toolStep (registry : ToolRegistry) (results : List Message) (t : ToolCall) :
    List Message :=
  match registry.lookup t.name with
  | some f =>
      results ++ [match f t.args with
        | .ok res => Message.tool t.id t.name res
        | .error e => Message.tool t.id t.name ("Error: " ++ e)]
  | none => results

/-- `tool_node` from `main.py`: iterate over the last message's tool calls,
appending one `ToolMessage` per call whose name is in `tool_map` (carrying
the result, or the error text when the invocation raises), and appending
nothing for a call whose name is not in `tool_map`. -/
def tool_node (registry : ToolRegistry) (last_message : Message) : List Message :=
  (getToolCalls last_message).foldl (toolStep registry) []

/-- The routing targets of the conditional edge out of the reasoner node. -/
inductive Route where
  | tools
  | done
deriving DecidableEq

/-- `router` from `main.py`: `"tools" if getattr(last_msg, "tool_calls",
None) else END`. -/
def router (last_msg : Message) : Route :=
  if getToolCalls last_msg ≠ [] then Route.tools else Route.done

/-- Modelled from the spec: the driver of the compiled `StateGraph` (the
LangGraph runtime alternating the `reasoner` node, the `router` conditional
edge and the `tools` node) is not part of the repository's sources, and §4.5
requires the loop to run under a configured turn bound. One reasoning turn
appends the reasoner's message; `router` then either terminates the run or
appends the `tool_node` results and reasons again, until the bound is spent.
Returns the number of reasoning turns taken and the final message list. -/
def runAgent (reason : List Message → Message) (registry : ToolRegistry) :
    Nat → List Message → Nat × List Message
  | 0, msgs => (0, msgs)
  | fuel + 1, msgs =>
    match router (reason msgs) with
    | .done => (1, msgs ++ [reason msgs])
    | .tools =>
      let out := runAgent reason registry fuel
        (msgs ++ [reason msgs] ++ tool_node registry (reason msgs))
      (out.1 + 1, out.2)

theorem foldl_toolStep_eq_filterMap (registry : ToolRegistry)
    (calls : List ToolCall) (acc : List Message) :
    calls.foldl (toolStep registry) acc
      = acc ++ calls.filterMap
          (fun t => (registry.lookup t.name).map
            (fun f => Message.tool t.id t.name (toolResultContent f t.args))) := by
  induction calls generalizing acc with
  | nil => simp
  | cons t ts ih =>
    rw [List.foldl_cons, ih, List.filterMap_cons]
    cases h : registry.lookup t.name with
    | none => simp [toolStep, h]
    | some f =>
      cases hr : f t.args with
      | ok res => simp [toolStep, toolResultContent, h, hr]
      | error e => simp [toolStep, toolResultContent, h, hr]

theorem length_filterMap_eq_countP {α β : Type} (g : α → Option β) (l : List α) :
    (l.filterMap g).length = l.countP (fun a => (g a).isSome) := by
  induction l with
  | nil => simp
  | cons t ts ih =>
    cases h : g t with
    | none => simp [List.filterMap_cons, h, ih, List.countP_cons]
    | some m => simp [List.filterMap_cons, h, ih, List.countP_cons]

/-- C2: for every list of tool requests in the latest reasoning message, the
ACT step (`tool_node`) appends exactly one tool-result message per request
whose name is in the tool registry — carrying the invocation's result, or
`"Error: " + text` when the invocation raises — and appends nothing for a
request whose name is not in the registry. The equation also shows that no
exception escapes the step: `tool_node` always produces the message list,
the raising case being folded into the message content by
`toolResultContent`. The second conjunct counts the appended messages: one
per recognized request. -/
theorem tool_node_act_contract (registry : ToolRegistry) (last : Message) :
    tool_node registry last
      = (getToolCalls last).filterMap
          (fun t => (registry.lookup t.name).map
            (fun f => Message.tool t.id t.name (toolResultContent f t.args)))
    ∧ (tool_node registry last).length
        = (getToolCalls last).countP (fun t => (registry.lookup t.name).isSome) := by
  have hmain : tool_node registry last
      = (getToolCalls last).filterMap
          (fun t => (registry.lookup t.name).map
            (fun f => Message.tool t.id t.name (toolResultContent f t.args))) := by
    unfold tool_node
    simpa using foldl_toolStep_eq_filterMap registry (getToolCalls last) []
  refine ⟨hmain, ?_⟩
  rw [hmain, length_filterMap_eq_countP]
  apply List.countP_congr
  intro t _
  simp

theorem runAgent_turns_le (reason : List Message → Message)
    (registry : ToolRegistry) :
    ∀ (fuel : Nat) (msgs : List Message),
      (runAgent reason registry fuel msgs).1 ≤ fuel := by
  intro fuel
  induction fuel with
  | zero => intro msgs; simp [runAgent]
  | succ n ih =>
    intro msgs
    rw [runAgent]
    cases h : router (reason msgs) with
    | done => simp
    | tools =>
      simp only []
      exact Nat.succ_le_succ (ih _)

/-- A reasoning function that immediately returns a final answer: no
requested tool calls. -/
def reasonFinal : List Message → Message :=
  fun _ => Message.ai "No reminders needed." []

/-- A reasoning function that requests a tool call on every turn. -/
def reasonAlways : List Message → Message :=
  fun _ => Message.ai "" [{ name := "get_booking_history", args := "", id := "c1" }]

/-- C3: `router` transitions to the terminal state exactly when the latest
reasoning output carries zero tool requests (first conjunct), and otherwise
to the tools node; consequently the loop takes exactly one reasoning turn
when the reasoning function immediately answers with no tool requests
(second conjunct), and never more reasoning turns than the configured bound,
even when the reasoning function requests a tool call on every turn (third
conjunct). -/
theorem router_routes_and_loop_bounded :
    (∀ m : Message, router m = Route.done ↔ getToolCalls m = [])
    ∧ (∀ (reason : List Message → Message) (registry : ToolRegistry)
        (msgs : List Message) (fuel : Nat),
        1 ≤ fuel → getToolCalls (reason msgs) = [] →
        (runAgent reason registry fuel msgs).1 = 1)
    ∧ (∀ (reason : List Message → Message) (registry : ToolRegistry)
        (msgs : List Message) (fuel : Nat),
        (runAgent reason registry fuel msgs).1 ≤ fuel) := by
  refine ⟨?_, ?_, ?_⟩
  · intro m
    unfold router
    by_cases h : getToolCalls m = [] <;> simp [h]
  · intro reason registry msgs fuel hfuel hcalls
    obtain ⟨n, rfl⟩ : ∃ n, fuel = n + 1 := ⟨fuel - 1, by omega⟩
    have hr : router (reason msgs) = Route.done := by
      unfold router; simp [hcalls]
    rw [runAgent, hr]
  · intro reason registry msgs fuel
    exact runAgent_turns_le reason registry fuel msgs

theorem router_routes_and_loop_bounded_witness :
    (runAgent reasonFinal [] 25 []).1 = 1
    ∧ (runAgent reasonAlways [] 25 []).1 ≤ 25 :=
  ⟨router_routes_and_loop_bounded.2.1 reasonFinal [] [] 25 (by decide) rfl,
   router_routes_and_loop_bounded.2.2 reasonAlways [] [] 25⟩

/-- A row of the table built by `get_booking_history`: player name, contact,
normalized date (the `%Y-%m-%d` string, modelled as the epoch-day number)
and the weekday name derived from it. -/
structure Row where
  user : String
  phone : String
  date : Int
  day : String
deriving DecidableEq

/-- The per-document cleaning loop of `get_booking_history`: the stored
datetime is converted to its UTC calendar date, and the weekday name is
derived from that date. -/
def cleanRow (b : BookingDoc) : Row :=
  { user := b.user_name, phone := b.whatsapp_number,
    date := floorDay b.date, day := dayName (floorDay b.date) }

/-- Most-recent-first ordering on stored documents (`sort("date", -1)`). -/
def dateDesc (a b : BookingDoc) : Prop := b.date ≤ a.date

instance : DecidableRel dateDesc :=
  fun a b => inferInstanceAs (Decidable (b.date ≤ a.date))

instance : IsTotal BookingDoc dateDesc := ⟨fun a b => le_total b.date a.date⟩

instance : IsTrans BookingDoc dateDesc := ⟨fun _ _ _ h1 h2 => le_trans h2 h1⟩

/-- The Mongo query of `get_booking_history`:
`find(date >= cutoff).sort("date", -1).limit(200)`, on a fixed snapshot. -/
def mongo_find_recent (store : List BookingDoc) (cutoff : Int) : List BookingDoc :=
  ((store.filter (fun b => decide (cutoff ≤ b.date))).insertionSort dateDesc).take 200

def rowToLine (r : Row) : String :=
  r.user ++ "," ++ r.phone ++ "," ++ toString r.date ++ "," ++ r.day

/-- `DataFrame.to_csv(index=False)`: a header line, then one line per row. -/
def rowsToCsv (rows : List Row) : String :=
  rows.foldl (fun acc r => acc ++ rowToLine r ++ "\n") "user,phone,date,day\n"

/-- The cleaned row list (`cleaned` in the source) that `get_booking_history`
builds from the query result on a successful fetch, before CSV
serialization. -/
def bh_rows (store : List BookingDoc) (cutoff : Int) : List Row :=
  (mongo_find_recent store cutoff).map cleanRow

/-- `get_booking_history` from `main.py`. `fetch` is the store access: the
snapshot of stored documents, or the text of the exception a store failure
raises; `now` is `datetime.now(timezone.utc)` in epoch seconds. The whole
body runs inside `try/except Exception`, which turns any raise — including
the `ValueError` raised for a non-positive `lookback_days` — into an
`"Error fetching data: ..."` string. -/
def get_booking_history (lookback_days : Int) (now : Int)
    (fetch : Except String (List BookingDoc)) : String :=
  if lookback_days ≤ 0 then
    "Error fetching data: lookback_days must be a positive integer"
  else
    match fetch with
    | .error e => "Error fetching data: " ++ e
    | .ok store =>
      if mongo_find_recent store (now - lookback_days * secsPerDay) = [] then
        "No bookings found in database."
      else
        rowsToCsv (bh_rows store (now - lookback_days * secsPerDay))

/-- The tool boundary of `get_booking_history`: the Python signature declares
`lookback_days: int = 30`, so a call that does not pass the argument binds
30. -/
def get_booking_history_call (lookback_days : Option Int) (now : Int)
    (fetch : Except String (List BookingDoc)) : String :=
  get_booking_history (lookback_days.getD 30) now fetch

/-- Truthiness of an environment variable (`os.getenv` result): `None`
(unset) and the empty string are both falsy. -/
def truthy : Option String → Bool
  | none => false
  | some s => !(s == "")

/-- `send_whatsapp_reminder` from `main.py`. `sid` and `authToken` are the
Twilio credentials read from the environment; `twilioSend` is the provider
call `client.messages.create(...)`, returning the provider message id or
raising. With missing credentials the provider is never consulted (the
simulation string is returned before any network object is built);
otherwise `try/except` turns a raise into a failure string. -/
def send_whatsapp_reminder (sid authToken : Option String)
    (twilioSend : String → String → Except String String)
    (phone_number message_body : String) : String :=
  if !truthy sid || !truthy authToken then
    "SIMULATION: Message '" ++ message_body ++ "' sent to " ++ phone_number
  else
    match twilioSend phone_number message_body with
    | .ok msgSid => "Message sent successfully. SID: " ++ msgSid
    | .error e => "Failed to send message: " ++ e

/-- C4: a call of `get_booking_history` with `lookback_days ≤ 0` returns the
invalid-argument failure string (in particular not the empty-result string),
and a store failure is caught and converted into a readable error string.
The function is total into `String`, so in the embedding no exception passes
its boundary in any case. -/
theorem booking_history_error_contract (lookback_days now : Int)
    (fetch : Except String (List BookingDoc)) :
    (lookback_days ≤ 0 →
      get_booking_history lookback_days now fetch
        = "Error fetching data: lookback_days must be a positive integer"
      ∧ get_booking_history lookback_days now fetch
        ≠ "No bookings found in database.")
    ∧ (∀ e : String, fetch = Except.error e → 0 < lookback_days →
        get_booking_history lookback_days now fetch
          = "Error fetching data: " ++ e) := by
  constructor
  · intro h
    have h1 : get_booking_history lookback_days now fetch
        = "Error fetching data: lookback_days must be a positive integer" := by
      unfold get_booking_history
      rw [if_pos h]
    refine ⟨h1, ?_⟩
    rw [h1]
    decide
  · intro e he h
    subst he
    unfold get_booking_history
    rw [if_neg (by omega)]

theorem booking_history_error_contract_witness :
    get_booking_history 0 0 (Except.ok [])
      = "Error fetching data: lookback_days must be a positive integer"
    ∧ get_booking_history 7 0 (Except.error "connection refused")
      = "Error fetching data: connection refused" :=
  ⟨((booking_history_error_contract 0 0 (Except.ok [])).1 (by decide)).1,
   (booking_history_error_contract 7 0 (Except.error "connection refused")).2
     "connection refused" rfl (by decide)⟩

/-- C6: with messaging credentials missing, `send_whatsapp_reminder` returns
the simulation-marked string and never consults the provider (its result
does not depend on the provider function); with credentials present, a
provider failure is reported as a descriptive failure string and a dispatch
success as an acknowledgment carrying the provider id; and in every case the
result is one of those three string shapes — in the embedding the function
is total into `String`, so no exception passes its boundary. -/
theorem send_reminder_contract (sid authToken : Option String)
    (twilioSend send2 : String → String → Except String String)
    (phone body : String) :
    (¬ (truthy sid = true ∧ truthy authToken = true) →
      send_whatsapp_reminder sid authToken twilioSend phone body
        = "SIMULATION: Message '" ++ body ++ "' sent to " ++ phone
      ∧ send_whatsapp_reminder sid authToken twilioSend phone body
        = send_whatsapp_reminder sid authToken send2 phone body)
    ∧ (∀ e, truthy sid = true → truthy authToken = true →
        twilioSend phone body = Except.error e →
        send_whatsapp_reminder sid authToken twilioSend phone body
          = "Failed to send message: " ++ e)
    ∧ (∀ s2, truthy sid = true → truthy authToken = true →
        twilioSend phone body = Except.ok s2 →
        send_whatsapp_reminder sid authToken twilioSend phone body
          = "Message sent successfully. SID: " ++ s2)
    ∧ (send_whatsapp_reminder sid authToken twilioSend phone body
        = "SIMULATION: Message '" ++ body ++ "' sent to " ++ phone
      ∨ (∃ s2, send_whatsapp_reminder sid authToken twilioSend phone body
          = "Message sent successfully. SID: " ++ s2)
      ∨ (∃ e, send_whatsapp_reminder sid authToken twilioSend phone body
          = "Failed to send message: " ++ e)) := by
  refine ⟨?_, ?_, ?_, ?_⟩
  · intro h
    have hcond : (!truthy sid || !truthy authToken) = true := by
      cases hs : truthy sid <;> cases ht : truthy authToken <;> simp_all
    constructor
    · unfold send_whatsapp_reminder
      rw [if_pos hcond]
    · unfold send_whatsapp_reminder
      rw [if_pos hcond, if_pos hcond]
  · intro e hs ht hsend
    unfold send_whatsapp_reminder
    rw [if_neg (by simp [hs, ht]), hsend]
  · intro s2 hs ht hsend
    unfold send_whatsapp_reminder
    rw [if_neg (by simp [hs, ht]), hsend]
  · unfold send_whatsapp_reminder
    by_cases hcond : (!truthy sid || !truthy authToken) = true
    · left
      rw [if_pos hcond]
    · cases hsend : twilioSend phone body with
      | ok s2 =>
        right; left
        exact ⟨s2, by rw [if_neg hcond]⟩
      | error e =>
        right; right
        exact ⟨e, by rw [if_neg hcond]⟩

theorem send_reminder_contract_witness :
    send_whatsapp_reminder none none (fun _ _ => Except.ok "SM123")
        "whatsapp:+15551234567" "hi"
      = "SIMULATION: Message 'hi' sent to whatsapp:+15551234567"
    ∧ send_whatsapp_reminder (some "AC1") (some "tok1")
        (fun _ _ => Except.error "provider unreachable")
        "whatsapp:+15551234567" "hi"
      = "Failed to send message: provider unreachable" :=
  ⟨((send_reminder_contract none none (fun _ _ => Except.ok "SM123")
      (fun _ _ => Except.ok "SM123") "whatsapp:+15551234567" "hi").1 (by decide)).1,
   (send_reminder_contract (some "AC1") (some "tok1")
      (fun _ _ => Except.error "provider unreachable")
      (fun _ _ => Except.error "provider unreachable")
      "whatsapp:+15551234567" "hi").2.1 "provider unreachable"
     (by decide) (by decide) rfl⟩

/-- C10: invoking `get_booking_history` without a `lookback_days` argument
behaves exactly as the call with `lookback_days = 30`, for every store state
(successful snapshot or failure) and every current time: the Python
signature defaults the parameter to 30 and nothing else in the body depends
on how the argument was bound. -/
theorem booking_history_default_lookback (now : Int)
    (fetch : Except String (List BookingDoc)) :
    get_booking_history_call none now fetch = get_booking_history 30 now fetch := rfl

theorem floorDay_mono {a b : Int} (h : a ≤ b) : floorDay a ≤ floorDay b := by
  unfold floorDay
  rw [Int.fdiv_eq_ediv a (by decide : (0:Int) ≤ secsPerDay),
      Int.fdiv_eq_ediv b (by decide : (0:Int) ≤ secsPerDay)]
  exact Int.ediv_le_ediv (by decide) h

theorem mongo_find_recent_mem {store : List BookingDoc} {cutoff : Int}
    {b : BookingDoc} (hb : b ∈ mongo_find_recent store cutoff) :
    b ∈ store ∧ cutoff ≤ b.date := by
  unfold mongo_find_recent at hb
  have h1 := (List.take_sublist _ _).subset hb
  have h2 := (List.perm_insertionSort dateDesc _).mem_iff.mp h1
  have h3 := List.mem_filter.mp h2
  exact ⟨h3.1, of_decide_eq_true h3.2⟩

theorem mongo_find_recent_pairwise (store : List BookingDoc) (cutoff : Int) :
    (mongo_find_recent store cutoff).Pairwise dateDesc :=
  List.Pairwise.sublist (List.take_sublist _ _)
    (List.sorted_insertionSort dateDesc _)

theorem mongo_find_recent_eq_nil_iff (store : List BookingDoc) (cutoff : Int) :
    mongo_find_recent store cutoff = [] ↔ ∀ b ∈ store, ¬ cutoff ≤ b.date := by
  unfold mongo_find_recent
  constructor
  · intro h
    rcases List.take_eq_nil_iff.mp h with h0 | hnil
    · exact absurd h0 (by decide)
    · have hlen := (List.perm_insertionSort dateDesc
        (store.filter (fun b => decide (cutoff ≤ b.date)))).length_eq
      rw [hnil] at hlen
      have hfil : store.filter (fun b => decide (cutoff ≤ b.date)) = [] :=
        List.eq_nil_of_length_eq_zero (by simpa using hlen.symm)
      intro b hb
      have := List.filter_eq_nil_iff.mp hfil b hb
      simpa using this
  · intro h
    have hfil : store.filter (fun b => decide (cutoff ≤ b.date)) = [] := by
      rw [List.filter_eq_nil_iff]
      intro a ha
      simpa using h a ha
    rw [hfil]
    rfl

/-- C5: for every successful fetch with positive `lookback_days`, the result
rows number at most 200 (conjunct 1), are ordered most-recent-first
(conjunct 2), and each row carries a stored booking's player name, contact,
normalized date and derived weekday name, the booking lying in the queried
range (conjunct 3); the row list is empty exactly when no booking falls in
the range (conjunct 4), in which case the tool returns the descriptive
no-data string rather than an error (conjunct 5), and otherwise it returns
the CSV serialization of the rows (conjunct 6). -/
theorem booking_history_success_contract (store : List BookingDoc)
    (lookback_days now : Int) (hpos : 0 < lookback_days) :
    (bh_rows store (now - lookback_days * secsPerDay)).length ≤ 200
    ∧ (bh_rows store (now - lookback_days * secsPerDay)).Pairwise
        (fun a b => b.date ≤ a.date)
    ∧ (∀ r ∈ bh_rows store (now - lookback_days * secsPerDay),
        ∃ b ∈ store, now - lookback_days * secsPerDay ≤ b.date
          ∧ r.user = b.user_name ∧ r.phone = b.whatsapp_number
          ∧ r.date = floorDay b.date ∧ r.day = dayName (floorDay b.date))
    ∧ (bh_rows store (now - lookback_days * secsPerDay) = []
        ↔ ∀ b ∈ store, ¬ now - lookback_days * secsPerDay ≤ b.date)
    ∧ (bh_rows store (now - lookback_days * secsPerDay) = [] →
        get_booking_history lookback_days now (Except.ok store)
          = "No bookings found in database.")
    ∧ (bh_rows store (now - lookback_days * secsPerDay) ≠ [] →
        get_booking_history lookback_days now (Except.ok store)
          = rowsToCsv (bh_rows store (now - lookback_days * secsPerDay))) := by
  refine ⟨?_, ?_, ?_, ?_, ?_, ?_⟩
  · unfold bh_rows
    rw [List.length_map]
    unfold mongo_find_recent
    exact List.length_take_le _ _
  · unfold bh_rows
    rw [List.pairwise_map]
    exact (mongo_find_recent_pairwise store _).imp
      (fun hab => floorDay_mono hab)
  · intro r hr
    unfold bh_rows at hr
    obtain ⟨b, hb, rfl⟩ := List.mem_map.mp hr
    obtain ⟨hbs, hbc⟩ := mongo_find_recent_mem hb
    exact ⟨b, hbs, hbc, rfl, rfl, rfl, rfl⟩
  · unfold bh_rows
    rw [List.map_eq_nil_iff]
    exact mongo_find_recent_eq_nil_iff store _
  · intro hnil
    unfold bh_rows at hnil
    rw [List.map_eq_nil_iff] at hnil
    unfold get_booking_history
    rw [if_neg (by omega)]
    exact if_pos hnil
  · intro hne
    have hne2 : mongo_find_recent store (now - lookback_days * secsPerDay) ≠ [] := by
      intro h
      exact hne (by unfold bh_rows; rw [h]; rfl)
    unfold get_booking_history
    rw [if_neg (by omega)]
    exact if_neg hne2

def demoHistoryStore : List BookingDoc :=
  [ { user_id := "u1", user_name := "Ann", whatsapp_number := "w1",
      court_name := "Court A", date := 19700 * 86400, is_regular_slot := true },
    { user_id := "u2", user_name := "Bob", whatsapp_number := "w2",
      court_name := "Court B", date := 19699 * 86400, is_regular_slot := true } ]

theorem booking_history_success_contract_witness :
    (bh_rows demoHistoryStore (19701 * 86400 - 30 * secsPerDay)).length ≤ 200
    ∧ (bh_rows demoHistoryStore (19701 * 86400 - 30 * secsPerDay)).Pairwise
        (fun a b => b.date ≤ a.date) :=
  ⟨(booking_history_success_contract demoHistoryStore 30 (19701 * 86400)
      (by decide)).1,
   (booking_history_success_contract demoHistoryStore 30 (19701 * 86400)
      (by decide)).2.1⟩

/-- A group produced by the aggregation pipeline of `find_regular_absentees`
(the deterministic detection path, present in `main.py` in commented form):
one qualifying player, with the first-seen display fields and the group's
record count (the spec's `RegularPlayerProfile`). -/
structure RegularProfile where
  user_id : String
  user_name : String
  whatsapp_number : String
  court_name : String
  count : Nat
deriving DecidableEq

/-- One document of the `$group` stage: if a group for the document's
`user_id` exists, its count grows by one (`$sum: 1`); otherwise a new group
opens with the first-seen display fields (`$first`). -/
def newProfile (b : BookingDoc) : RegularProfile :=
  { user_id := b.user_id, user_name := b.user_name,
    whatsapp_number := b.whatsapp_number, court_name := b.court_name,
    count := 1 }

def bump (b : BookingDoc) (p : RegularProfile) : RegularProfile :=
  if p.user_id == b.user_id then { p with count := p.count + 1 } else p

def groupStep (acc : List RegularProfile) (b : BookingDoc) : List RegularProfile :=
  if acc.any (fun p => p.user_id == b.user_id) then
    acc.map (bump b)
  else
    acc ++ [newProfile b]

/-- The `$group` stage over the filtered bookings, in document order. -/
def groupByUser (bs : List BookingDoc) : List RegularProfile :=
  bs.foldl groupStep []

/-- The first `$match` stage of the pipeline: `date` in the half-open window
`[day_start - lookback_weeks weeks, day_start)` and `is_regular_slot: True`,
with `day_start = datetime.combine(target_day, time.min, utc)`. -/
def inWindowRegular (target_day lookback_weeks : Int) (b : BookingDoc) : Bool :=
  decide (target_day * secsPerDay - lookback_weeks * 7 * secsPerDay ≤ b.date)
    && decide (b.date < target_day * secsPerDay)
    && b.is_regular_slot

/-- The `$addFields` + second `$match` stage: the booking's ISO weekday
equals `target_day.isoweekday()`. -/
def onTargetWeekday (target_day : Int) (b : BookingDoc) : Bool :=
  decide (isoDayOfWeek b.date = isoWeekdayOfDay target_day)

/-- The aggregation pipeline of `find_regular_absentees`: match window and
regular flag, match the target weekday, group by player, and keep the groups
with `count ≥ min_sessions`. Its output is the regular-player set. -/
def regular_pipeline (store : List BookingDoc)
    (target_day lookback_weeks min_sessions : Int) : List RegularProfile :=
  (groupByUser ((store.filter (inWindowRegular target_day lookback_weeks)).filter
      (onTargetWeekday target_day))).filter
    (fun p => decide (min_sessions ≤ (p.count : Int)))

/-- The per-player `find_one` presence test of `find_regular_absentees`: any
booking by the player dated in `[day_start, day_start + 1 day)`. -/
def hasBookingOnDay (store : List BookingDoc) (u : String) (target_day : Int) : Bool :=
  store.any (fun b => b.user_id == u
    && decide (target_day * secsPerDay ≤ b.date)
    && decide (b.date < target_day * secsPerDay + secsPerDay))

/-- `find_regular_absentees` from `main.py` (present in the source in
commented form; the spec describes it as the Pattern Detector plus Absence
Checker): the pipeline's regular players without a booking on the target
day. -/
def find_regular_absentees (store : List BookingDoc)
    (target_day lookback_weeks min_sessions : Int) : List RegularProfile :=
  (regular_pipeline store target_day lookback_weeks min_sessions).filter
    (fun p => !hasBookingOnDay store p.user_id target_day)

/-- The number of the player's regular-slot bookings lying in the half-open
lookback window and falling on the target day's weekday. -/
def qualifyingCount (store : List BookingDoc)
    (target_day lookback_weeks : Int) (u : String) : Nat :=
  store.countP (fun b => b.user_id == u
    && inWindowRegular target_day lookback_weeks b
    && onTargetWeekday target_day b)

/-- The start-of-day instants inside the lookback window that fall on the
target day's weekday: one per week of the window. -/
def weeklyDates (target_day lookback_weeks : Int) : List Int :=
  (List.range lookback_weeks.toNat).map
    (fun (k : Nat) => (target_day - 7 * ((k : Int) + 1)) * secsPerDay)

theorem groupByUser_append (bs : List BookingDoc) (b : BookingDoc) :
    groupByUser (bs ++ [b]) = groupStep (groupByUser bs) b := by
  unfold groupByUser
  rw [List.foldl_append]
  rfl


theorem bump_user_id (b : BookingDoc) (p : RegularProfile) :
    (bump b p).user_id = p.user_id := by
  unfold bump
  by_cases h : p.user_id = b.user_id <;> simp [h]

theorem bump_count (b : BookingDoc) (p : RegularProfile) :
    (bump b p).count = p.count + (if p.user_id = b.user_id then 1 else 0) := by
  unfold bump
  by_cases h : p.user_id = b.user_id <;> simp [h]

theorem groupStep_mem_iff (acc : List RegularProfile) (b : BookingDoc) (u : String) :
    (∃ p ∈ groupStep acc b, p.user_id = u)
      ↔ (∃ p ∈ acc, p.user_id = u) ∨ b.user_id = u := by
  unfold groupStep
  by_cases hin : acc.any (fun p => p.user_id == b.user_id) = true
  · rw [if_pos hin]
    obtain ⟨q, hq, hquid⟩ : ∃ q ∈ acc, q.user_id = b.user_id := by
      simpa [List.any_eq_true] using hin
    constructor
    · rintro ⟨p, hp, hu⟩
      obtain ⟨p0, hp0, rfl⟩ := List.mem_map.mp hp
      rw [bump_user_id] at hu
      exact Or.inl ⟨p0, hp0, hu⟩
    · rintro (⟨p0, hp0, hu⟩ | hu)
      · exact ⟨bump b p0, List.mem_map.mpr ⟨p0, hp0, rfl⟩, by rw [bump_user_id]; exact hu⟩
      · exact ⟨bump b q, List.mem_map.mpr ⟨q, hq, rfl⟩,
          by rw [bump_user_id]; exact hquid.trans hu⟩
  · rw [if_neg hin]
    constructor
    · rintro ⟨p, hp, hu⟩
      rcases List.mem_append.mp hp with h | h
      · exact Or.inl ⟨p, h, hu⟩
      · have hpn : p = newProfile b := by simpa using h
        subst hpn
        exact Or.inr hu
    · rintro (⟨p0, hp0, hu⟩ | hu)
      · exact ⟨p0, List.mem_append_left _ hp0, hu⟩
      · exact ⟨newProfile b, List.mem_append_right _ (by simp), hu⟩

theorem groupStep_count (acc : List RegularProfile) (b : BookingDoc)
    (bs : List BookingDoc)
    (ihmem : ∀ u : String,
      (∃ p ∈ acc, p.user_id = u) ↔ ∃ x ∈ bs, x.user_id = u)
    (ihcount : ∀ p ∈ acc, p.count = bs.countP (fun x => x.user_id == p.user_id)) :
    ∀ p ∈ groupStep acc b,
      p.count = (bs ++ [b]).countP (fun x => x.user_id == p.user_id) := by
  intro p hp
  rw [List.countP_append]
  simp only [List.countP_cons, List.countP_nil, Nat.zero_add]
  unfold groupStep at hp
  by_cases hin : acc.any (fun p => p.user_id == b.user_id) = true
  · rw [if_pos hin] at hp
    obtain ⟨p0, hp0, rfl⟩ := List.mem_map.mp hp
    rw [bump_count, bump_user_id, ihcount p0 hp0]
    by_cases h : p0.user_id = b.user_id
    · simp [h]
    · have hb : (b.user_id == p0.user_id) = false := by
        simp only [beq_eq_false_iff_ne, ne_eq]
        exact fun hc => h hc.symm
      simp [h, hb]
  · rw [if_neg hin] at hp
    have hforall : ∀ p0 ∈ acc, ¬ p0.user_id = b.user_id := by
      intro p0 hp0 hc
      apply hin
      rw [List.any_eq_true]
      exact ⟨p0, hp0, by simp [hc]⟩
    rcases List.mem_append.mp hp with hacc | hnew
    · have hb : (b.user_id == p.user_id) = false := by
        simp only [beq_eq_false_iff_ne, ne_eq]
        exact fun hc => hforall p hacc hc.symm
      rw [ihcount p hacc]
      simp [hb]
    · have hpn : p = newProfile b := by simpa using hnew
      subst hpn
      have hzero : bs.countP (fun x => x.user_id == (newProfile b).user_id) = 0 := by
        rw [List.countP_eq_zero]
        intro a ha hab
        have hau : a.user_id = b.user_id := by
          simpa [newProfile] using hab
        obtain ⟨p0, hp0, hp0u⟩ := (ihmem b.user_id).mpr ⟨a, ha, hau⟩
        exact hforall p0 hp0 hp0u
      rw [hzero]
      simp [newProfile]

theorem groupByUser_inv (bs : List BookingDoc) :
    (∀ u : String,
      (∃ p ∈ groupByUser bs, p.user_id = u) ↔ ∃ b ∈ bs, b.user_id = u)
    ∧ ∀ p ∈ groupByUser bs,
      p.count = bs.countP (fun b => b.user_id == p.user_id) := by
  induction bs using List.reverseRecOn with
  | nil =>
    refine ⟨fun u => ?_, fun p hp => ?_⟩
    · simp [groupByUser]
    · simp [groupByUser] at hp
  | append_singleton bs b ih =>
    obtain ⟨ihmem, ihcount⟩ := ih
    rw [groupByUser_append]
    constructor
    · intro u
      rw [groupStep_mem_iff, ihmem u]
      constructor
      · rintro (⟨b', h, hu⟩ | hu)
        · exact ⟨b', List.mem_append_left _ h, hu⟩
        · exact ⟨b, List.mem_append_right _ (by simp), hu⟩
      · rintro ⟨b', h, hu⟩
        rcases List.mem_append.mp h with h1 | h1
        · exact Or.inl ⟨b', h1, hu⟩
        · have hb'b : b' = b := by simpa using h1
          subst hb'b
          exact Or.inr hu
    · exact groupStep_count (groupByUser bs) b bs ihmem ihcount

theorem stage2_countP (store : List BookingDoc) (target_day lookback_weeks : Int)
    (u : String) :
    ((store.filter (inWindowRegular target_day lookback_weeks)).filter
        (onTargetWeekday target_day)).countP (fun b => b.user_id == u)
      = qualifyingCount store target_day lookback_weeks u := by
  rw [List.countP_filter, List.countP_filter]
  unfold qualifyingCount
  apply List.countP_congr
  intro b _
  cases h1 : (b.user_id == u) <;>
    cases h2 : inWindowRegular target_day lookback_weeks b <;>
      cases h3 : onTargetWeekday target_day b <;> simp [h1, h2, h3]

theorem regular_pipeline_mem_iff (store : List BookingDoc)
    (target_day lookback_weeks min_sessions : Int) (u : String) :
    (∃ p ∈ regular_pipeline store target_day lookback_weeks min_sessions,
        p.user_id = u)
      ↔ 1 ≤ qualifyingCount store target_day lookback_weeks u
        ∧ min_sessions ≤ (qualifyingCount store target_day lookback_weeks u : Int) := by
  unfold regular_pipeline
  constructor
  · rintro ⟨p, hp, rfl⟩
    obtain ⟨hpg, hpm⟩ := List.mem_filter.mp hp
    have hcnt := (groupByUser_inv _).2 p hpg
    rw [stage2_countP] at hcnt
    have hmle : min_sessions ≤ (p.count : Int) := of_decide_eq_true hpm
    obtain ⟨b, hb, hbu⟩ := ((groupByUser_inv _).1 p.user_id).mp ⟨p, hpg, rfl⟩
    have hpos : 0 < ((store.filter (inWindowRegular target_day lookback_weeks)).filter
        (onTargetWeekday target_day)).countP (fun x => x.user_id == p.user_id) :=
      List.countP_pos_iff.mpr ⟨b, hb, by simp [hbu]⟩
    rw [stage2_countP] at hpos
    constructor
    · omega
    · rw [hcnt] at hmle
      exact hmle
  · rintro ⟨hpos, hmle⟩
    have hpos2 : 0 < ((store.filter (inWindowRegular target_day lookback_weeks)).filter
        (onTargetWeekday target_day)).countP (fun x => x.user_id == u) := by
      rw [stage2_countP]
      omega
    obtain ⟨b, hb, hbu⟩ := List.countP_pos_iff.mp hpos2
    have hbu2 : b.user_id = u := by simpa using hbu
    obtain ⟨p, hpg, hpu⟩ := ((groupByUser_inv _).1 u).mpr ⟨b, hb, hbu2⟩
    have hcnt := (groupByUser_inv _).2 p hpg
    rw [hpu, stage2_countP] at hcnt
    refine ⟨p, List.mem_filter.mpr ⟨hpg, ?_⟩, hpu⟩
    rw [decide_eq_true_eq, hcnt]
    exact hmle

theorem regular_pipeline_count (store : List BookingDoc)
    (target_day lookback_weeks min_sessions : Int) :
    ∀ p ∈ regular_pipeline store target_day lookback_weeks min_sessions,
      p.count = qualifyingCount store target_day lookback_weeks p.user_id := by
  intro p hp
  unfold regular_pipeline at hp
  obtain ⟨hpg, _⟩ := List.mem_filter.mp hp
  have hcnt := (groupByUser_inv _).2 p hpg
  rwa [stage2_countP] at hcnt

theorem qualifying_pred_of_weekly (target_day lookback_weeks : Int)
    (hw : 0 < lookback_weeks) {d : Int}
    (hd : d ∈ weeklyDates target_day lookback_weeks) {b : BookingDoc}
    (hdate : b.date = d) (hreg : b.is_regular_slot = true) :
    (inWindowRegular target_day lookback_weeks b
      && onTargetWeekday target_day b) = true := by
  obtain ⟨k, hk, hkd⟩ := List.mem_map.mp hd
  rw [List.mem_range] at hk
  have hwk : ((lookback_weeks.toNat : Int)) = lookback_weeks :=
    Int.toNat_of_nonneg hw.le
  have hkw : (k : Int) + 1 ≤ lookback_weeks := by omega
  have hle : target_day * secsPerDay - lookback_weeks * 7 * secsPerDay
      ≤ b.date := by
    rw [hdate, ← hkd]
    simp only [secsPerDay]
    omega
  have hlt : b.date < target_day * secsPerDay := by
    rw [hdate, ← hkd]
    simp only [secsPerDay]
    omega
  have hfd : floorDay b.date = target_day - 7 * ((k : Int) + 1) := by
    rw [hdate, ← hkd]
    unfold floorDay
    exact Int.mul_fdiv_cancel _ (by decide)
  have hweek : isoDayOfWeek b.date = isoWeekdayOfDay target_day := by
    unfold isoDayOfWeek
    rw [hfd]
    unfold isoWeekdayOfDay
    congr 1
    show (target_day - 7 * ((k : Int) + 1) + 3) % 7 = (target_day + 3) % 7
    have harith : target_day - 7 * ((k : Int) + 1) + 3
        = (target_day + 3) + 7 * (-((k : Int) + 1)) := by ring
    rw [harith, Int.add_mul_emod_self_left]
  unfold inWindowRegular onTargetWeekday
  simp [hle, hlt, hreg, hweek]

theorem qualifyingCount_every_week (store : List BookingDoc)
    (target_day lookback_weeks : Int) (u : String)
    (hw : 0 < lookback_weeks)
    (hkey : store.Pairwise (fun a b => a.user_id = b.user_id → a.date ≠ b.date))
    (hpres : ∀ d ∈ weeklyDates target_day lookback_weeks,
      ∃ b ∈ store, b.user_id = u ∧ b.date = d ∧ b.is_regular_slot = true)
    (hnorm : ∀ b ∈ store, b.user_id = u →
      (inWindowRegular target_day lookback_weeks b
        && onTargetWeekday target_day b) = true →
      b.date ∈ weeklyDates target_day lookback_weeks) :
    (qualifyingCount store target_day lookback_weeks u : Int) = lookback_weeks := by
  have hqc : qualifyingCount store target_day lookback_weeks u
      = (store.filter (fun b => b.user_id == u
          && inWindowRegular target_day lookback_weeks b
          && onTargetWeekday target_day b)).length := by
    unfold qualifyingCount
    exact List.countP_eq_length_filter _ _
  set F := store.filter (fun b => b.user_id == u
      && inWindowRegular target_day lookback_weeks b
      && onTargetWeekday target_day b) with hF
  have hFmem : ∀ b ∈ F, b ∈ store ∧ b.user_id = u
      ∧ (inWindowRegular target_day lookback_weeks b
          && onTargetWeekday target_day b) = true := by
    intro b hb
    rw [hF] at hb
    obtain ⟨hbs, hbP⟩ := List.mem_filter.mp hb
    simp only [Bool.and_eq_true, beq_iff_eq] at hbP
    exact ⟨hbs, hbP.1.1, by simp [hbP.1.2, hbP.2]⟩
  have hFpair : F.Pairwise (fun a b => a.user_id = b.user_id → a.date ≠ b.date) :=
    List.Pairwise.sublist (List.filter_sublist store) hkey
  have hFpair2 : F.Pairwise (fun a b => a.date ≠ b.date) :=
    hFpair.imp_of_mem (fun ha hb hr =>
      hr (((hFmem _ ha).2.1).trans ((hFmem _ hb).2.1).symm))
  have hnd : (F.map (fun b => b.date)).Nodup := List.pairwise_map.mpr hFpair2
  have hwd : (weeklyDates target_day lookback_weeks).Nodup := by
    unfold weeklyDates
    refine List.pairwise_map.mpr ?_
    refine (List.nodup_range lookback_weeks.toNat).imp_of_mem
      (fun ha hb hne heq => ?_)
    apply hne
    have hcancel := Int.eq_of_mul_eq_mul_right
      (by decide : secsPerDay ≠ 0) heq
    omega
  have hsub1 : F.map (fun b => b.date) ⊆ weeklyDates target_day lookback_weeks := by
    intro d hd
    obtain ⟨b, hb, rfl⟩ := List.mem_map.mp hd
    obtain ⟨hbs, hbu, hbq⟩ := hFmem b hb
    exact hnorm b hbs hbu hbq
  have hsub2 : weeklyDates target_day lookback_weeks ⊆ F.map (fun b => b.date) := by
    intro d hd
    obtain ⟨b, hbs, hbu, hbd, hbreg⟩ := hpres d hd
    have hq := qualifying_pred_of_weekly target_day lookback_weeks hw hd hbd hbreg
    have hbF : b ∈ F := by
      rw [hF]
      refine List.mem_filter.mpr ⟨hbs, ?_⟩
      simp only [Bool.and_eq_true, beq_iff_eq] at hq ⊢
      exact ⟨⟨hbu, hq.1⟩, hq.2⟩
    exact List.mem_map.mpr ⟨b, hbF, hbd⟩
  have hlen1 := (hnd.subperm hsub1).length_le
  have hlen2 := (hwd.subperm hsub2).length_le
  have hlenw : (weeklyDates target_day lookback_weeks).length
      = lookback_weeks.toNat := by
    unfold weeklyDates
    rw [List.length_map, List.length_range]
  have hlenF : (F.map (fun b => b.date)).length = F.length := List.length_map _ _
  have hFw : F.length = lookback_weeks.toNat := by omega
  rw [hqc, hFw]
  exact Int.toNat_of_nonneg hw.le

/-- C7: for every target day, lookback and threshold (with the positive
threshold of the caller contract), the pipeline's output contains a player
exactly when their count of regular-slot bookings inside the half-open
lookback window falling on the target weekday reaches `min_sessions`
(conjunct 1), every output profile's `session_count` equals that count
(conjunct 2), a player whose bookings all fall on other weekdays is never
included, regardless of threshold — the weekday filter runs before grouping
(conjunct 3), and a player booked on the target weekday in every week of the
window (with the natural-key invariant and date-normalized bookings) has a
qualifying count equal to `lookback_weeks` (conjunct 4). -/
theorem pattern_detector_contract (store : List BookingDoc)
    (target_day lookback_weeks min_sessions : Int)
    (hm : 1 ≤ min_sessions) :
    (∀ u : String,
      (∃ p ∈ regular_pipeline store target_day lookback_weeks min_sessions,
          p.user_id = u)
        ↔ min_sessions ≤ (qualifyingCount store target_day lookback_weeks u : Int))
    ∧ (∀ p ∈ regular_pipeline store target_day lookback_weeks min_sessions,
        p.count = qualifyingCount store target_day lookback_weeks p.user_id)
    ∧ (∀ u : String,
        (∀ b ∈ store, b.user_id = u →
          isoDayOfWeek b.date ≠ isoWeekdayOfDay target_day) →
        ¬ ∃ p ∈ regular_pipeline store target_day lookback_weeks min_sessions,
            p.user_id = u)
    ∧ (∀ u : String, 0 < lookback_weeks →
        store.Pairwise (fun a b => a.user_id = b.user_id → a.date ≠ b.date) →
        (∀ d ∈ weeklyDates target_day lookback_weeks,
          ∃ b ∈ store, b.user_id = u ∧ b.date = d ∧ b.is_regular_slot = true) →
        (∀ b ∈ store, b.user_id = u →
          (inWindowRegular target_day lookback_weeks b
            && onTargetWeekday target_day b) = true →
          b.date ∈ weeklyDates target_day lookback_weeks) →
        (qualifyingCount store target_day lookback_weeks u : Int) = lookback_weeks) := by
  refine ⟨?_, ?_, ?_, ?_⟩
  · intro u
    rw [regular_pipeline_mem_iff]
    constructor
    · exact fun h => h.2
    · intro h
      refine ⟨?_, h⟩
      omega
  · exact regular_pipeline_count store target_day lookback_weeks min_sessions
  · intro u hweek hmem
    rw [regular_pipeline_mem_iff] at hmem
    obtain ⟨hpos, -⟩ := hmem
    have hzero : qualifyingCount store target_day lookback_weeks u = 0 := by
      unfold qualifyingCount
      rw [List.countP_eq_zero]
      intro b hb hP
      simp only [Bool.and_eq_true, beq_iff_eq] at hP
      obtain ⟨⟨hbu, -⟩, honw⟩ := hP
      unfold onTargetWeekday at honw
      exact hweek b hb hbu (of_decide_eq_true honw)
    omega
  · intro u hw hkey hpres hnorm
    exact qualifyingCount_every_week store target_day lookback_weeks u hw
      hkey hpres hnorm

def demoRegularStore : List BookingDoc :=
  [ { user_id := "u1", user_name := "Ann", whatsapp_number := "w1",
      court_name := "Court A", date := 11 * 86400, is_regular_slot := true },
    { user_id := "u1", user_name := "Ann", whatsapp_number := "w1",
      court_name := "Court A", date := 4 * 86400, is_regular_slot := true },
    { user_id := "u2", user_name := "Bob", whatsapp_number := "w2",
      court_name := "Court B", date := 12 * 86400, is_regular_slot := true } ]

theorem pattern_detector_contract_witness :
    (∃ p ∈ regular_pipeline demoRegularStore 18 2 2, p.user_id = "u1")
    ∧ ¬ ∃ p ∈ regular_pipeline demoRegularStore 18 2 2, p.user_id = "u2" :=
  ⟨((pattern_detector_contract demoRegularStore 18 2 2 (by decide)).1 "u1").mpr
      (by decide),
   (pattern_detector_contract demoRegularStore 18 2 2 (by decide)).2.2.1 "u2"
      (by decide)⟩

/-- C8 counterexample: called with `lookback_weeks = 0` (non-positive) on a
store that does contain bookings, the detector raises no error and reports
nothing to its caller — it has no validation at all and no error channel in
its result — and silently returns the empty set (first two conjuncts,
pipeline and full detector); called with `min_sessions = 0` (non-positive)
it silently returns a non-empty regular set instead of failing fast (third
conjunct). -/
theorem detector_no_fail_fast_counterexample :
    regular_pipeline demoRegularStore 18 0 3 = []
    ∧ find_regular_absentees demoRegularStore 18 0 3 = []
    ∧ regular_pipeline demoRegularStore 18 2 0
        = [{ user_id := "u1", user_name := "Ann", whatsapp_number := "w1",
             court_name := "Court A", count := 2 }] := by
  decide

/-- C8 amended: `find_regular_absentees` performs no validation of
`lookback_weeks` or `min_sessions` and cannot report an error to its caller.
With `lookback_weeks ≤ 0` the lookback window is empty and the detector
silently returns the empty set (for both the pipeline and the full
detector); with `min_sessions ≤ 0` the threshold is silently defaulted away:
a player is in the output exactly when they have at least one qualifying
booking. -/
theorem detector_no_validation (store : List BookingDoc)
    (target_day lookback_weeks min_sessions : Int) :
    (lookback_weeks ≤ 0 →
      regular_pipeline store target_day lookback_weeks min_sessions = []
      ∧ find_regular_absentees store target_day lookback_weeks min_sessions = [])
    ∧ (min_sessions ≤ 0 →
      ∀ u : String,
        (∃ p ∈ regular_pipeline store target_day lookback_weeks min_sessions,
            p.user_id = u)
          ↔ 1 ≤ qualifyingCount store target_day lookback_weeks u) := by
  constructor
  · intro hw
    have hfil : store.filter (inWindowRegular target_day lookback_weeks) = [] := by
      rw [List.filter_eq_nil_iff]
      intro b hb hP
      unfold inWindowRegular at hP
      simp only [Bool.and_eq_true, decide_eq_true_eq] at hP
      have h1 := hP.1.1
      have h2 := hP.1.2
      simp only [secsPerDay] at h1 h2
      omega
    have hpipe : regular_pipeline store target_day lookback_weeks min_sessions
        = [] := by
      unfold regular_pipeline
      rw [hfil]
      rfl
    refine ⟨hpipe, ?_⟩
    unfold find_regular_absentees
    rw [hpipe]
    rfl
  · intro hms u
    rw [regular_pipeline_mem_iff]
    constructor
    · exact fun h => h.1
    · intro h
      refine ⟨h, ?_⟩
      omega

theorem detector_no_validation_witness :
    regular_pipeline demoRegularStore 25 (-1) 3 = []
    ∧ ((∃ p ∈ regular_pipeline demoRegularStore 18 2 (-5), p.user_id = "u2")
        ↔ 1 ≤ qualifyingCount demoRegularStore 18 2 "u2") :=
  ⟨((detector_no_validation demoRegularStore 25 (-1) 3).1 (by decide)).1,
   (detector_no_validation demoRegularStore 18 2 (-5)).2 (by decide) "u2"⟩

/-- C9: for every profile in the detector's regular set, the absence check
reports the player absent exactly when the store holds no booking by that
player dated inside the half-open day range
`[day_start, day_start + 1 day)` of the target day — a booking at any
time-of-day (and any court) within the day prevents absence, and with no
such booking the player is always reported absent. -/
theorem absence_checker_contract (store : List BookingDoc)
    (target_day lookback_weeks min_sessions : Int) (p : RegularProfile)
    (hp : p ∈ regular_pipeline store target_day lookback_weeks min_sessions) :
    p ∈ find_regular_absentees store target_day lookback_weeks min_sessions
      ↔ ¬ ∃ b ∈ store, b.user_id = p.user_id
          ∧ target_day * secsPerDay ≤ b.date
          ∧ b.date < target_day * secsPerDay + secsPerDay := by
  unfold find_regular_absentees
  rw [List.mem_filter]
  constructor
  · rintro ⟨-, habs⟩
    intro hex
    obtain ⟨b, hb, hbu, hble, hblt⟩ := hex
    have : hasBookingOnDay store p.user_id target_day = true := by
      unfold hasBookingOnDay
      rw [List.any_eq_true]
      exact ⟨b, hb, by simp [hbu, hble, hblt]⟩
    simp [this] at habs
  · intro hnone
    refine ⟨hp, ?_⟩
    have : hasBookingOnDay store p.user_id target_day = false := by
      unfold hasBookingOnDay
      rw [List.any_eq_false]
      intro b hb hP
      simp only [Bool.and_eq_true, beq_iff_eq, decide_eq_true_eq] at hP
      exact hnone ⟨b, hb, hP.1.1, hP.1.2, hP.2⟩
    simp [this]

theorem absence_checker_contract_witness :
    ({ user_id := "u1", user_name := "Ann", whatsapp_number := "w1",
       court_name := "Court A", count := 2 } : RegularProfile)
      ∈ find_regular_absentees demoRegularStore 18 2 2 :=
  (absence_checker_contract demoRegularStore 18 2 2 _ (by decide)).mpr (by decide)
